import Mathlib

/-!
Shallow embedding of the `SSLBusCompressor` class from
`src/code/Python/audio/compressor.py`.

Python floats are modelled as real numbers; NumPy arrays of samples as
lists of reals.  The object's attributes form the `SSLBusCompressor`
structure below; the methods `set_params` and `process` become functions
from a state to a new state (plus, for `process`, the output buffer).
-/

/-- Base-10 logarithm, the model of `np.log10`. -/
noncomputable def log10 (x : ℝ) : ℝ := Real.log x / Real.log 10

/-- The attribute state of an `SSLBusCompressor` object.  The Python
constructor only sets `sample_rate`, the five parameter attributes and
`envelope`; the derived attributes `threshold`, `attack_coeff`,
`release_coeff` and `makeup_gain` first appear in `set_params`.  Here they
are ordinary fields, so that a state models an object on which
`set_params` has run at least once (as every caller in the file does). -/
structure SSLBusCompressor where
  sample_rate : ℝ
  threshold_db : ℝ
  ratio : ℝ
  attack_ms : ℝ
  release_ms : ℝ
  makeup_gain_db : ℝ
  threshold : ℝ
  attack_coeff : ℝ
  release_coeff : ℝ
  makeup_gain : ℝ
  envelope : ℝ

/-- `SSLBusCompressor.set_params`: stores the five parameters, recomputes
the four derived attributes from them and the stored `sample_rate`, and
resets the envelope to `0.0`.  (As in the source, the stale `attack_ms`
and `release_ms` attributes from the constructor are not overwritten; only
the coefficients derived from the new values are stored.) -/
noncomputable def SSLBusCompressor.set_params (c : SSLBusCompressor)
    (threshold_db ratio attack_ms release_ms makeup_gain_db : ℝ) : SSLBusCompressor :=
  { c with
    threshold_db := threshold_db
    threshold := (10 : ℝ) ^ (threshold_db / 20)
    ratio := ratio
    attack_coeff := Real.exp (-1 / (0.001 * attack_ms * c.sample_rate))
    release_coeff := Real.exp (-1 / (0.001 * release_ms * c.sample_rate))
    makeup_gain_db := makeup_gain_db
    makeup_gain := (10 : ℝ) ^ (makeup_gain_db / 20)
    envelope := 0 }

/-- Python exceptions that the modelled methods can raise.
`zeroDivisionError` is Python's `ZeroDivisionError`, raised by float
division by zero.  `invalidParameter` models the `InvalidParameter` error
of the specification's error taxonomy; no code path in the source raises
it. -/
inductive PyErr : Type
  | zeroDivisionError : PyErr
  | invalidParameter : PyErr
deriving DecidableEq

/-- `set_params` executed with Python exception semantics: the attribute
assignments happen in source order, and the first float division by zero
(`-1.0 / (0.001 * attack_ms * self.sample_rate)`, and likewise for
release) raises `ZeroDivisionError`, leaving the attributes assigned
before that line already mutated.  The result is the object state at exit
together with the raised exception, if any. -/
noncomputable def SSLBusCompressor.set_params_run (c : SSLBusCompressor)
    (threshold_db ratio attack_ms release_ms makeup_gain_db : ℝ) :
    SSLBusCompressor × Option PyErr :=
  let c1 := { c with threshold_db := threshold_db,
                     threshold := (10 : ℝ) ^ (threshold_db / 20),
                     ratio := ratio }
  if 0.001 * attack_ms * c.sample_rate = 0 then
    (c1, some PyErr.zeroDivisionError)
  else
    let c2 := { c1 with attack_coeff := Real.exp (-1 / (0.001 * attack_ms * c.sample_rate)) }
    if 0.001 * release_ms * c.sample_rate = 0 then
      (c2, some PyErr.zeroDivisionError)
    else
      ({ c2 with release_coeff := Real.exp (-1 / (0.001 * release_ms * c.sample_rate)),
                 makeup_gain_db := makeup_gain_db,
                 makeup_gain := (10 : ℝ) ^ (makeup_gain_db / 20),
                 envelope := 0 }, none)

/-- The envelope update performed for one sample inside `process`:
`rectified = abs(x)`; the attack coefficient is used when the rectified
sample exceeds the current envelope, the release coefficient otherwise;
the new envelope is `coeff * (envelope - rectified) + rectified`. -/
noncomputable def SSLBusCompressor.updateEnvelope (c : SSLBusCompressor) (x : ℝ) : ℝ :=
  if |x| > c.envelope then
    c.attack_coeff * (c.envelope - |x|) + |x|
  else
    c.release_coeff * (c.envelope - |x|) + |x|

/-- `gain_reduction_db` as computed inside `process`:
`(20 * np.log10(envelope / threshold)) * (1.0 - 1.0 / ratio)`. -/
noncomputable def SSLBusCompressor.gainReductionDb (c : SSLBusCompressor) (env : ℝ) : ℝ :=
  20 * log10 (env / c.threshold) * (1 - 1 / c.ratio)

/-- The gain applied to one sample inside `process`: when the (already
updated) envelope exceeds the threshold, `10 ** (-gain_reduction_db / 20)`;
otherwise `1.0`. -/
noncomputable def SSLBusCompressor.gainFor (c : SSLBusCompressor) (env : ℝ) : ℝ :=
  if env > c.threshold then
    (10 : ℝ) ^ (-c.gainReductionDb env / 20)
  else
    1

/-- One iteration of the loop body of `process`: update the envelope,
compute the gain from the updated envelope, and output
`x * gain * makeup_gain`. -/
noncomputable def SSLBusCompressor.processSample (c : SSLBusCompressor) (x : ℝ) :
    ℝ × SSLBusCompressor :=
  (x * c.gainFor (c.updateEnvelope x) * c.makeup_gain,
   { c with envelope := c.updateEnvelope x })

/-- `SSLBusCompressor.process`: run the loop body over the input buffer in
order, threading the mutated object state, and return the output buffer
together with the final state. -/
noncomputable def SSLBusCompressor.process (c : SSLBusCompressor) :
    List ℝ → List ℝ × SSLBusCompressor
  | [] => ([], c)
  | x :: xs =>
    ((c.processSample x).1 :: ((c.processSample x).2.process xs).1,
     ((c.processSample x).2.process xs).2)

/-- A concrete, fully configured compressor state used to instantiate the
universally quantified theorems below at specific inputs. -/
noncomputable def cW : SSLBusCompressor :=
  { sample_rate := 44100
    threshold_db := -10
    ratio := 4
    attack_ms := 10
    release_ms := 300
    makeup_gain_db := 0
    threshold := 1
    attack_coeff := 1 / 2
    release_coeff := 1 / 2
    makeup_gain := 1
    envelope := 0 }

/-! ### Helper lemmas about `process` -/

theorem SSLBusCompressor.process_nil (c : SSLBusCompressor) :
    c.process [] = ([], c) := rfl

theorem SSLBusCompressor.process_cons (c : SSLBusCompressor) (x : ℝ) (xs : List ℝ) :
    c.process (x :: xs) =
      ((c.processSample x).1 :: ((c.processSample x).2.process xs).1,
       ((c.processSample x).2.process xs).2) := rfl

theorem SSLBusCompressor.processSample_snd (c : SSLBusCompressor) (x : ℝ) :
    (c.processSample x).2 = { c with envelope := c.updateEnvelope x } := rfl

/-- `process` never changes any attribute other than `envelope`. -/
theorem SSLBusCompressor.process_preserves (c : SSLBusCompressor) (xs : List ℝ) :
    (c.process xs).2.sample_rate = c.sample_rate ∧
    (c.process xs).2.threshold = c.threshold ∧
    (c.process xs).2.ratio = c.ratio ∧
    (c.process xs).2.attack_coeff = c.attack_coeff ∧
    (c.process xs).2.release_coeff = c.release_coeff ∧
    (c.process xs).2.makeup_gain = c.makeup_gain := by
  induction xs generalizing c with
  | nil => exact ⟨rfl, rfl, rfl, rfl, rfl, rfl⟩
  | cons x xs ih => exact ih (c.processSample x).2

/-! ### The claims -/

/-- C2: for every sample `x`, the envelope stored by one loop iteration of
`process` is `coeff * (envelope - |x|) + |x|`, where `coeff` is the attack
coefficient when `|x| > envelope` and the release coefficient otherwise. -/
theorem envelope_update_rule (c : SSLBusCompressor) (x : ℝ) :
    (c.processSample x).2.envelope =
      (if |x| > c.envelope then c.attack_coeff else c.release_coeff)
        * (c.envelope - |x|) + |x| := by
  show c.updateEnvelope x = _
  unfold SSLBusCompressor.updateEnvelope
  split <;> simp

/-- C4: processing a buffer split into two chunks on the same instance
yields exactly the outputs of processing the whole buffer, concatenated,
and the same final state: the envelope carried across the call boundary
makes chunked processing identical to one large call. -/
theorem process_chunked (c : SSLBusCompressor) (a b : List ℝ) :
    c.process (a ++ b) =
      ((c.process a).1 ++ ((c.process a).2.process b).1,
       ((c.process a).2.process b).2) := by
  induction a generalizing c with
  | nil => simp [SSLBusCompressor.process]
  | cons x xs ih =>
      simp only [List.cons_append, SSLBusCompressor.process_cons, ih,
        List.cons_append]

/-- C7: `set_params` recomputes every derived attribute (`threshold`,
`attack_coeff`, `release_coeff`, `makeup_gain`) from the newly supplied
parameters and the stored sample rate, and resets the envelope to `0.0`,
so the next `process` call starts from envelope `0`. -/
theorem set_params_recomputes (c : SSLBusCompressor)
    (tdb r ams rms mdb : ℝ) :
    (c.set_params tdb r ams rms mdb).threshold = (10 : ℝ) ^ (tdb / 20) ∧
    (c.set_params tdb r ams rms mdb).attack_coeff =
      Real.exp (-1 / (0.001 * ams * c.sample_rate)) ∧
    (c.set_params tdb r ams rms mdb).release_coeff =
      Real.exp (-1 / (0.001 * rms * c.sample_rate)) ∧
    (c.set_params tdb r ams rms mdb).makeup_gain = (10 : ℝ) ^ (mdb / 20) ∧
    (c.set_params tdb r ams rms mdb).envelope = 0 :=
  ⟨rfl, rfl, rfl, rfl, rfl⟩

theorem SSLBusCompressor.processSample_gainFor (c : SSLBusCompressor) (x env : ℝ) :
    (c.processSample x).2.gainFor env = c.gainFor env := rfl

theorem SSLBusCompressor.processSample_makeup (c : SSLBusCompressor) (x : ℝ) :
    (c.processSample x).2.makeup_gain = c.makeup_gain := rfl

theorem SSLBusCompressor.process_length (c : SSLBusCompressor) (xs : List ℝ) :
    (c.process xs).1.length = xs.length := by
  induction xs generalizing c with
  | nil => rfl
  | cons x xs ih => simp [SSLBusCompressor.process_cons, ih]

theorem SSLBusCompressor.process_getD (c : SSLBusCompressor) (xs : List ℝ) (i : ℕ)
    (hi : i < xs.length) :
    (c.process xs).1.getD i 0 =
      xs.getD i 0 * c.gainFor ((c.process (xs.take (i + 1))).2.envelope) * c.makeup_gain := by
  induction xs generalizing c i with
  | nil => exact absurd hi (by simp)
  | cons x xs ih =>
    cases i with
    | zero => rfl
    | succ n =>
      have hn : n < xs.length := by simpa using hi
      have h := ih (c.processSample x).2 n hn
      simpa [SSLBusCompressor.process_cons, List.getD_cons_succ, List.take_succ_cons,
        SSLBusCompressor.processSample_gainFor, SSLBusCompressor.processSample_makeup] using h

/-- C3: `process` maps a buffer to a buffer of the same length (so the
empty buffer maps to the empty buffer), and the `i`-th output sample is
the `i`-th input sample times the gain computed from the envelope as it
stands just after the `i`-th update, times the makeup gain. -/
theorem process_output_spec (c : SSLBusCompressor) (xs : List ℝ) :
    (c.process xs).1.length = xs.length ∧
    ∀ i : ℕ, i < xs.length →
      (c.process xs).1.getD i 0 =
        xs.getD i 0 * c.gainFor ((c.process (xs.take (i + 1))).2.envelope) * c.makeup_gain :=
  ⟨c.process_length xs, fun i hi => c.process_getD xs i hi⟩

/-- Instance of `process_output_spec` at a concrete state and buffer. -/
theorem process_output_spec_witness :
    (cW.process [1]).1.getD 0 0 =
      ([1] : List ℝ).getD 0 0 *
        cW.gainFor ((cW.process (([1] : List ℝ).take 1)).2.envelope) * cW.makeup_gain :=
  (process_output_spec cW [1]).2 0 (by simp)

theorem SSLBusCompressor.gainFor_ratio_one (c : SSLBusCompressor) (h : c.ratio = 1)
    (env : ℝ) : c.gainFor env = 1 := by
  unfold SSLBusCompressor.gainFor SSLBusCompressor.gainReductionDb
  rw [h]
  norm_num

theorem SSLBusCompressor.process_ratio_one (c : SSLBusCompressor) (xs : List ℝ)
    (hr : c.ratio = 1) (hm : c.makeup_gain = 1) :
    (c.process xs).1 = xs := by
  induction xs generalizing c with
  | nil => rfl
  | cons x xs ih =>
    have h1 : ((c.processSample x).2).ratio = 1 := hr
    have h2 : ((c.processSample x).2).makeup_gain = 1 := hm
    rw [SSLBusCompressor.process_cons]
    show (c.processSample x).1 :: ((c.processSample x).2.process xs).1 = x :: xs
    rw [ih _ h1 h2]
    show x * c.gainFor (c.updateEnvelope x) * c.makeup_gain :: xs = x :: xs
    rw [c.gainFor_ratio_one hr, hm, mul_one, mul_one]

/-- C5: after configuring with ratio `1` and makeup gain `0` dB, `process`
returns every input buffer unchanged sample-for-sample, whatever the
threshold, attack and release settings: the gain reduction is always `0`
dB, so the gain is always `1`, and the makeup multiplier is `1`. -/
theorem ratio_one_pass_through (c : SSLBusCompressor) (tdb ams rms : ℝ) (xs : List ℝ) :
    ((c.set_params tdb 1 ams rms 0).process xs).1 = xs := by
  apply SSLBusCompressor.process_ratio_one
  · rfl
  · show (10 : ℝ) ^ ((0 : ℝ) / 20) = 1
    rw [zero_div, Real.rpow_zero]

/-! ### Coefficient bounds and envelope invariants -/

theorem exp_coeff_bounds (d : ℝ) (hd : 0 < d) :
    0 ≤ Real.exp (-1 / d) ∧ Real.exp (-1 / d) ≤ 1 :=
  ⟨(Real.exp_pos _).le,
   Real.exp_le_one_iff.mpr
     (by rw [neg_div]; exact neg_nonpos.mpr (le_of_lt (by positivity)))⟩

theorem SSLBusCompressor.updateEnvelope_le_threshold (c : SSLBusCompressor) (x : ℝ)
    (h0a : 0 ≤ c.attack_coeff) (h1a : c.attack_coeff ≤ 1)
    (h0r : 0 ≤ c.release_coeff) (h1r : c.release_coeff ≤ 1)
    (henv : c.envelope ≤ c.threshold) (hx : |x| ≤ c.threshold) :
    c.updateEnvelope x ≤ c.threshold := by
  unfold SSLBusCompressor.updateEnvelope
  split
  · nlinarith [mul_nonneg h0a (sub_nonneg.mpr henv),
      mul_nonneg (sub_nonneg.mpr h1a) (sub_nonneg.mpr hx)]
  · nlinarith [mul_nonneg h0r (sub_nonneg.mpr henv),
      mul_nonneg (sub_nonneg.mpr h1r) (sub_nonneg.mpr hx)]

theorem SSLBusCompressor.updateEnvelope_nonneg (c : SSLBusCompressor) (x : ℝ)
    (h0a : 0 ≤ c.attack_coeff) (h1a : c.attack_coeff ≤ 1)
    (h0r : 0 ≤ c.release_coeff) (h1r : c.release_coeff ≤ 1)
    (henv : 0 ≤ c.envelope) : 0 ≤ c.updateEnvelope x := by
  unfold SSLBusCompressor.updateEnvelope
  split
  · nlinarith [mul_nonneg h0a henv, mul_nonneg (sub_nonneg.mpr h1a) (abs_nonneg x)]
  · nlinarith [mul_nonneg h0r henv, mul_nonneg (sub_nonneg.mpr h1r) (abs_nonneg x)]

theorem SSLBusCompressor.process_below_threshold (c : SSLBusCompressor) (xs : List ℝ)
    (h0a : 0 ≤ c.attack_coeff) (h1a : c.attack_coeff ≤ 1)
    (h0r : 0 ≤ c.release_coeff) (h1r : c.release_coeff ≤ 1)
    (henv : c.envelope ≤ c.threshold)
    (hx : ∀ x ∈ xs, |x| ≤ c.threshold) :
    (c.process xs).1 = xs.map (fun x => x * c.makeup_gain) := by
  induction xs generalizing c with
  | nil => rfl
  | cons x xs ih =>
    have hxx : |x| ≤ c.threshold := hx x (List.mem_cons_self x xs)
    have hup : c.updateEnvelope x ≤ c.threshold :=
      c.updateEnvelope_le_threshold x h0a h1a h0r h1r henv hxx
    have hgain : c.gainFor (c.updateEnvelope x) = 1 := by
      unfold SSLBusCompressor.gainFor
      rw [if_neg (not_lt.mpr hup)]
    have hrec := ih (c.processSample x).2 h0a h1a h0r h1r hup
      (fun y hy => hx y (List.mem_cons_of_mem _ hy))
    rw [SSLBusCompressor.process_cons]
    show (c.processSample x).1 :: ((c.processSample x).2.process xs).1 =
      (x * c.makeup_gain) :: xs.map (fun x => x * c.makeup_gain)
    rw [hrec]
    show x * c.gainFor (c.updateEnvelope x) * c.makeup_gain ::
        xs.map (fun x => x * c.makeup_gain) =
      (x * c.makeup_gain) :: xs.map (fun x => x * c.makeup_gain)
    rw [hgain, mul_one]

/-- C6: after a configuration with positive sample rate, attack and
release, if every sample of the buffer has absolute value at most the
linear threshold, the output is the input scaled by the makeup gain
sample-for-sample: starting from envelope `0`, the envelope never exceeds
the threshold, so the gain is `1.0` at every step. -/
theorem below_threshold_output (c : SSLBusCompressor) (tdb r ams rms mdb : ℝ)
    (hsr : 0 < c.sample_rate) (hams : 0 < ams) (hrms : 0 < rms) (xs : List ℝ)
    (hx : ∀ x ∈ xs, |x| ≤ (c.set_params tdb r ams rms mdb).threshold) :
    ((c.set_params tdb r ams rms mdb).process xs).1 =
      xs.map (fun x => x * (c.set_params tdb r ams rms mdb).makeup_gain) := by
  have ha : (0 : ℝ) < 0.001 * ams * c.sample_rate := by positivity
  have hb : (0 : ℝ) < 0.001 * rms * c.sample_rate := by positivity
  have hthr : (0 : ℝ) < (c.set_params tdb r ams rms mdb).threshold :=
    Real.rpow_pos_of_pos (by norm_num) _
  exact (c.set_params tdb r ams rms mdb).process_below_threshold xs
    (exp_coeff_bounds _ ha).1 (exp_coeff_bounds _ ha).2
    (exp_coeff_bounds _ hb).1 (exp_coeff_bounds _ hb).2 hthr.le hx

/-- Instance of `below_threshold_output` at a concrete state and buffer. -/
theorem below_threshold_output_witness :
    ((cW.set_params 0 4 10 300 0).process [0]).1 =
      ([0] : List ℝ).map (fun x => x * (cW.set_params 0 4 10 300 0).makeup_gain) :=
  below_threshold_output cW 0 4 10 300 0 (by norm_num [cW]) (by norm_num) (by norm_num) [0]
    (by
      intro x hx
      simp only [List.mem_singleton] at hx
      subst hx
      show |(0 : ℝ)| ≤ (10 : ℝ) ^ ((0 : ℝ) / 20)
      rw [zero_div, Real.rpow_zero]
      simp)

theorem SSLBusCompressor.process_envelope_nonneg (c : SSLBusCompressor) (xs : List ℝ)
    (h0a : 0 ≤ c.attack_coeff) (h1a : c.attack_coeff ≤ 1)
    (h0r : 0 ≤ c.release_coeff) (h1r : c.release_coeff ≤ 1)
    (henv : 0 ≤ c.envelope) : 0 ≤ (c.process xs).2.envelope := by
  induction xs generalizing c with
  | nil => exact henv
  | cons x xs ih =>
    exact ih (c.processSample x).2 h0a h1a h0r h1r
      (c.updateEnvelope_nonneg x h0a h1a h0r h1r henv)

/-- C9: the envelope is non-negative at all times: `set_params` puts it at
`0`, and (for positive sample rate, attack and release, which make both
coefficients lie in `[0, 1]`) processing any buffer leaves it
non-negative — each update is a convex combination of the previous
envelope and the non-negative rectified sample.  Since every prefix of a
stream is itself a buffer, this covers every intermediate sample. -/
theorem envelope_nonneg_invariant (c : SSLBusCompressor) (tdb r ams rms mdb : ℝ)
    (hsr : 0 < c.sample_rate) (hams : 0 < ams) (hrms : 0 < rms) :
    (c.set_params tdb r ams rms mdb).envelope = 0 ∧
    ∀ xs : List ℝ, 0 ≤ ((c.set_params tdb r ams rms mdb).process xs).2.envelope := by
  have ha : (0 : ℝ) < 0.001 * ams * c.sample_rate := by positivity
  have hb : (0 : ℝ) < 0.001 * rms * c.sample_rate := by positivity
  refine ⟨rfl, fun xs => ?_⟩
  exact (c.set_params tdb r ams rms mdb).process_envelope_nonneg xs
    (exp_coeff_bounds _ ha).1 (exp_coeff_bounds _ ha).2
    (exp_coeff_bounds _ hb).1 (exp_coeff_bounds _ hb).2 le_rfl

/-- Instance of `envelope_nonneg_invariant` at a concrete state. -/
theorem envelope_nonneg_invariant_witness :
    0 ≤ ((cW.set_params (-10) 4 10 300 0).process [1, -2]).2.envelope :=
  (envelope_nonneg_invariant cW (-10) 4 10 300 0
    (by norm_num [cW]) (by norm_num) (by norm_num)).2 [1, -2]

/-! ### Gain bounds and ratio monotonicity -/

theorem log10_div_nonneg (env thr : ℝ) (hthr : 0 < thr) (h : thr < env) :
    0 ≤ log10 (env / thr) := by
  unfold log10
  exact div_nonneg (Real.log_nonneg ((one_le_div hthr).mpr h.le))
    (Real.log_pos (by norm_num)).le

theorem SSLBusCompressor.gainFor_nonneg (c : SSLBusCompressor) (env : ℝ) :
    0 ≤ c.gainFor env := by
  unfold SSLBusCompressor.gainFor
  split
  · exact Real.rpow_nonneg (by norm_num) _
  · norm_num

theorem SSLBusCompressor.gainFor_le_one (c : SSLBusCompressor) (env : ℝ)
    (hthr : 0 < c.threshold) (hr : 1 ≤ c.ratio) : c.gainFor env ≤ 1 := by
  unfold SSLBusCompressor.gainFor
  by_cases h : env > c.threshold
  · rw [if_pos h]
    apply Real.rpow_le_one_of_one_le_of_nonpos (by norm_num)
    have hL : 0 ≤ log10 (env / c.threshold) := log10_div_nonneg env c.threshold hthr h
    have h0 : (0 : ℝ) < c.ratio := lt_of_lt_of_le one_pos hr
    have hq : 0 ≤ 1 - 1 / c.ratio := by
      have : 1 / c.ratio ≤ 1 := by rw [div_le_one h0]; exact hr
      linarith
    have hgr : 0 ≤ c.gainReductionDb env := by
      unfold SSLBusCompressor.gainReductionDb
      exact mul_nonneg (mul_nonneg (by norm_num) hL) hq
    rw [neg_div]
    exact neg_nonpos.mpr (div_nonneg hgr (by norm_num))
  · rw [if_neg h]

theorem SSLBusCompressor.process_output_bound (c : SSLBusCompressor) (xs : List ℝ)
    (hthr : 0 < c.threshold) (hr : 1 ≤ c.ratio) (hmk : 0 ≤ c.makeup_gain) :
    List.Forall₂ (fun y x => |y| ≤ |x| * c.makeup_gain) (c.process xs).1 xs := by
  induction xs generalizing c with
  | nil => exact List.Forall₂.nil
  | cons x xs ih =>
    rw [SSLBusCompressor.process_cons]
    show List.Forall₂ _
      ((c.processSample x).1 :: ((c.processSample x).2.process xs).1) (x :: xs)
    refine List.Forall₂.cons ?_ (ih (c.processSample x).2 hthr hr hmk)
    show |x * c.gainFor (c.updateEnvelope x) * c.makeup_gain| ≤ |x| * c.makeup_gain
    have h1 : c.gainFor (c.updateEnvelope x) ≤ 1 := c.gainFor_le_one _ hthr hr
    have h0 : 0 ≤ c.gainFor (c.updateEnvelope x) := c.gainFor_nonneg _
    rw [abs_mul, abs_mul, abs_of_nonneg h0, abs_of_nonneg hmk]
    exact mul_le_mul_of_nonneg_right (mul_le_of_le_one_right (abs_nonneg x) h1) hmk

/-- C10 (implicit): after any configuration with ratio at least `1`, the
per-sample gain is at most `1`, so every output sample's magnitude is at
most the corresponding input sample's magnitude times the makeup gain:
the compressor never amplifies beyond the makeup gain. -/
theorem compressor_never_amplifies (c : SSLBusCompressor) (tdb r ams rms mdb : ℝ)
    (hr : 1 ≤ r) (xs : List ℝ) :
    List.Forall₂ (fun y x => |y| ≤ |x| * (c.set_params tdb r ams rms mdb).makeup_gain)
      ((c.set_params tdb r ams rms mdb).process xs).1 xs := by
  have hthr : (0 : ℝ) < (c.set_params tdb r ams rms mdb).threshold :=
    Real.rpow_pos_of_pos (by norm_num) _
  have hmk : (0 : ℝ) ≤ (c.set_params tdb r ams rms mdb).makeup_gain :=
    Real.rpow_nonneg (by norm_num) _
  exact (c.set_params tdb r ams rms mdb).process_output_bound xs hthr hr hmk

/-- Instance of `compressor_never_amplifies` at a concrete state and buffer. -/
theorem compressor_never_amplifies_witness :
    List.Forall₂ (fun y x => |y| ≤ |x| * (cW.set_params (-10) 4 10 300 0).makeup_gain)
      ((cW.set_params (-10) 4 10 300 0).process [2]).1 [2] :=
  compressor_never_amplifies cW (-10) 4 10 300 0 (by norm_num) [2]

theorem SSLBusCompressor.updateEnvelope_congr (cA cB : SSLBusCompressor) (x : ℝ)
    (hat : cB.attack_coeff = cA.attack_coeff) (hrl : cB.release_coeff = cA.release_coeff)
    (henv : cB.envelope = cA.envelope) :
    cB.updateEnvelope x = cA.updateEnvelope x := by
  unfold SSLBusCompressor.updateEnvelope
  rw [hat, hrl, henv]

theorem SSLBusCompressor.gainFor_anti_ratio (cA cB : SSLBusCompressor) (env : ℝ)
    (hth : cB.threshold = cA.threshold) (hthr : 0 < cA.threshold)
    (hr1 : 1 ≤ cA.ratio) (hr2 : cA.ratio ≤ cB.ratio) :
    cB.gainFor env ≤ cA.gainFor env := by
  unfold SSLBusCompressor.gainFor SSLBusCompressor.gainReductionDb
  rw [hth]
  by_cases h : env > cA.threshold
  · rw [if_pos h, if_pos h]
    rw [Real.rpow_le_rpow_left_iff (by norm_num : (1 : ℝ) < 10)]
    have hL : 0 ≤ log10 (env / cA.threshold) := log10_div_nonneg env cA.threshold hthr h
    have h0A : (0 : ℝ) < cA.ratio := lt_of_lt_of_le one_pos hr1
    have hinv : 1 / cB.ratio ≤ 1 / cA.ratio := one_div_le_one_div_of_le h0A hr2
    have hmul : 20 * log10 (env / cA.threshold) * (1 - 1 / cA.ratio) ≤
        20 * log10 (env / cA.threshold) * (1 - 1 / cB.ratio) :=
      mul_le_mul_of_nonneg_left (by linarith) (mul_nonneg (by norm_num) hL)
    linarith
  · rw [if_neg h, if_neg h]

theorem SSLBusCompressor.process_mono_ratio (cA cB : SSLBusCompressor) (xs : List ℝ)
    (hth : cB.threshold = cA.threshold) (hat : cB.attack_coeff = cA.attack_coeff)
    (hrl : cB.release_coeff = cA.release_coeff) (hmk : cB.makeup_gain = cA.makeup_gain)
    (henv : cB.envelope = cA.envelope) (hthr : 0 < cA.threshold)
    (hr1 : 1 ≤ cA.ratio) (hr2 : cA.ratio ≤ cB.ratio) (hmk0 : 0 ≤ cA.makeup_gain)
    (hxs : ∀ x ∈ xs, 0 ≤ x) :
    List.Forall₂ (· ≤ ·) (cB.process xs).1 (cA.process xs).1 := by
  induction xs generalizing cA cB with
  | nil => exact List.Forall₂.nil
  | cons x xs ih =>
    have hx0 : 0 ≤ x := hxs x (List.mem_cons_self x xs)
    have hupd : cB.updateEnvelope x = cA.updateEnvelope x :=
      SSLBusCompressor.updateEnvelope_congr cA cB x hat hrl henv
    rw [SSLBusCompressor.process_cons, SSLBusCompressor.process_cons]
    show List.Forall₂ _
      ((cB.processSample x).1 :: ((cB.processSample x).2.process xs).1)
      ((cA.processSample x).1 :: ((cA.processSample x).2.process xs).1)
    refine List.Forall₂.cons ?_ ?_
    · show x * cB.gainFor (cB.updateEnvelope x) * cB.makeup_gain ≤
        x * cA.gainFor (cA.updateEnvelope x) * cA.makeup_gain
      rw [hupd, hmk]
      have hg : cB.gainFor (cA.updateEnvelope x) ≤ cA.gainFor (cA.updateEnvelope x) :=
        SSLBusCompressor.gainFor_anti_ratio cA cB _ hth hthr hr1 hr2
      exact mul_le_mul_of_nonneg_right (mul_le_mul_of_nonneg_left hg hx0) hmk0
    · exact ih (cA.processSample x).2 (cB.processSample x).2 hth hat hrl hmk hupd
        hthr hr1 hr2 hmk0 (fun y hy => hxs y (List.mem_cons_of_mem _ hy))

/-- C8: for a constant buffer of amplitude above the threshold, with every
other parameter fixed, the run configured with the larger of two ratios
(both at least `1`) produces, at every sample, an output no larger than
the run with the smaller ratio: gain reduction is monotonically
non-decreasing in the ratio. -/
theorem gain_reduction_mono_in_ratio (c : SSLBusCompressor)
    (tdb ams rms mdb r1 r2 amp : ℝ) (n : ℕ) (h1 : 1 ≤ r1) (h12 : r1 ≤ r2)
    (hamp : (c.set_params tdb r1 ams rms mdb).threshold < amp) :
    List.Forall₂ (· ≤ ·)
      ((c.set_params tdb r2 ams rms mdb).process (List.replicate n amp)).1
      ((c.set_params tdb r1 ams rms mdb).process (List.replicate n amp)).1 := by
  have hthr : (0 : ℝ) < (c.set_params tdb r1 ams rms mdb).threshold :=
    Real.rpow_pos_of_pos (by norm_num) _
  have hmk : (0 : ℝ) ≤ (c.set_params tdb r1 ams rms mdb).makeup_gain :=
    Real.rpow_nonneg (by norm_num) _
  have hamp0 : 0 ≤ amp := (hthr.trans hamp).le
  exact SSLBusCompressor.process_mono_ratio _ _ _ rfl rfl rfl rfl rfl hthr h1 h12 hmk
    (fun x hx => by rw [List.eq_of_mem_replicate hx]; exact hamp0)

/-- Instance of `gain_reduction_mono_in_ratio` at a concrete state. -/
theorem gain_reduction_mono_in_ratio_witness :
    List.Forall₂ (· ≤ ·)
      ((cW.set_params 0 2 10 300 0).process (List.replicate 1 (2 : ℝ))).1
      ((cW.set_params 0 1 10 300 0).process (List.replicate 1 (2 : ℝ))).1 :=
  gain_reduction_mono_in_ratio cW 0 10 300 0 1 2 2 1 (by norm_num) (by norm_num)
    (by
      show (10 : ℝ) ^ ((0 : ℝ) / 20) < 2
      rw [zero_div, Real.rpow_zero]
      norm_num)

/-! ### Parameter validation behaviour of `set_params` -/

/-- C1 counterexample: a `set_params` call with the invalid ratio `0.5`
(which is `< 1`) does not fail at all — no exception (in particular no
`InvalidParameter`) is raised — and the stored ratio is nevertheless
updated to `0.5`, contradicting both the claimed failure and the claimed
atomic rejection. -/
theorem set_params_accepts_invalid_cex :
    ((1 : ℝ) / 2 < 1) ∧
    (cW.set_params_run (-10) (1 / 2) 10 300 0).2 = none ∧
    (cW.set_params_run (-10) (1 / 2) 10 300 0).1.ratio = 1 / 2 := by
  have h1 : 0.001 * (10 : ℝ) * cW.sample_rate ≠ 0 := by
    show 0.001 * (10 : ℝ) * 44100 ≠ 0
    norm_num
  have h2 : 0.001 * (300 : ℝ) * cW.sample_rate ≠ 0 := by
    show 0.001 * (300 : ℝ) * 44100 ≠ 0
    norm_num
  refine ⟨by norm_num, ?_, ?_⟩ <;>
    simp only [SSLBusCompressor.set_params_run, if_neg h1, if_neg h2]

/-- C1 (amended): `set_params` performs no range validation.  Whenever the
two divisors `0.001 * attackMs * sampleRate` and
`0.001 * releaseMs * sampleRate` are non-zero, the call succeeds with no
exception — even for parameter sets the specification calls invalid, such
as `ratio < 1` or negative attack or release times — and stores the full
recomputation `set_params` describes.  When the attack divisor is zero
(e.g. `attackMs = 0`) the call raises `ZeroDivisionError`, not
`InvalidParameter`, and by then `threshold_db`, the linear threshold and
the ratio are already updated while `attack_coeff` and the envelope are
not: the rejection is not atomic. -/
theorem set_params_no_validation (c : SSLBusCompressor) (tdb r ams rms mdb : ℝ) :
    (0.001 * ams * c.sample_rate ≠ 0 → 0.001 * rms * c.sample_rate ≠ 0 →
      c.set_params_run tdb r ams rms mdb = (c.set_params tdb r ams rms mdb, none)) ∧
    (0.001 * ams * c.sample_rate = 0 →
      (c.set_params_run tdb r ams rms mdb).2 = some PyErr.zeroDivisionError ∧
      (c.set_params_run tdb r ams rms mdb).1.threshold = (10 : ℝ) ^ (tdb / 20) ∧
      (c.set_params_run tdb r ams rms mdb).1.ratio = r ∧
      (c.set_params_run tdb r ams rms mdb).1.attack_coeff = c.attack_coeff ∧
      (c.set_params_run tdb r ams rms mdb).1.envelope = c.envelope) := by
  constructor
  · intro ha hb
    simp only [SSLBusCompressor.set_params_run, if_neg ha, if_neg hb]
    rfl
  · intro ha
    simp only [SSLBusCompressor.set_params_run, if_pos ha]
    exact ⟨trivial, trivial, trivial, trivial, trivial⟩

/-- Instance of `set_params_no_validation` at a concrete state and an
invalid parameter set (`ratio = 0.5`): the call succeeds with no error. -/
theorem set_params_no_validation_witness :
    cW.set_params_run (-10) (1 / 2) 10 300 0 =
      (cW.set_params (-10) (1 / 2) 10 300 0, none) :=
  (set_params_no_validation cW (-10) (1 / 2) 10 300 0).1
    (by
      show 0.001 * (10 : ℝ) * 44100 ≠ 0
      norm_num)
    (by
      show 0.001 * (300 : ℝ) * 44100 ≠ 0
      norm_num)
